import Mathlib

/-!
Shallow embedding of the exercise-generator core of a piano sight-reading
trainer (`src/services/logic.ts` of the repository), together with proofs of
the specification's claims about it.

Modelling conventions:
* MIDI pitches are `Nat` (the code only ever handles values in `[0, 127]`).
* `Math.random()` returns a double that is an integer multiple of `2⁻⁵³` in
  `[0, 1)`; draws are modelled as an infinite stream `s : Nat → Nat` of the
  numerators (each `< 2⁵³`) together with a cursor position, and every
  theorem about generation quantifies over all such streams.
* The JavaScript `uuidv4()` item id is pure bookkeeping and is omitted from
  the `ExerciseItem` record; no claim mentions it.
* The `i--; continue` retry loop of chord generation is modelled with an
  explicit fuel parameter; `generateExercise` returns `none` when the fuel is
  exhausted, and the termination theorems show fuel `6` always suffices.
-/

namespace SightReader

/-- The 15 key roots of `KeyRoot` in `types.ts`. -/
inductive KeyRoot where
  | C | G | D | A | E | B | Fs | Cs | F | Bb | Eb | Ab | Db | Gb | Cb
  deriving DecidableEq, Repr, Fintype

/-- `KeyType` in `types.ts`. -/
inductive KeyType where
  | major | minor
  deriving DecidableEq, Repr, Fintype

/-- `ClefType` in `types.ts`. -/
inductive ClefType where
  | treble | bass
  deriving DecidableEq, Repr, Fintype

/-- `GameMode` in `types.ts`. -/
inductive GameMode where
  | single | chords | beams
  deriving DecidableEq, Repr, Fintype

/-- Accidental markers: the `'#' | 'b' | 'n'` alternatives of `Note.accidental`. -/
inductive Acc where
  | sharp | flat | natural
  deriving DecidableEq, Repr, Fintype

/-- `Note` in `types.ts` (octave is an integer: pitch 0 has octave `-1`). -/
structure Note where
  midi : Nat
  name : String
  octave : Int
  accidental : Option Acc
  duration : Option String := none
  deriving DecidableEq, Repr

/-- Item status in `types.ts`. -/
inductive Status where
  | pending | correct | incorrect
  deriving DecidableEq, Repr

/-- `ExerciseItem` in `types.ts`; the `uuidv4()` id is omitted (pure bookkeeping). -/
structure ExerciseItem where
  notes : List Note
  status : Status
  isBeamGroup : Bool := false
  beamGroupIndex : Option Nat := none
  deriving DecidableEq, Repr

/-- `GameSettings` in `types.ts`. -/
structure GameSettings where
  clef : ClefType
  useAccidentals : Bool
  mode : GameMode
  keyRoot : KeyRoot
  keyType : KeyType
  deriving DecidableEq, Repr

/-- `ROOT_MIDI_VALUES` in `logic.ts`, restricted to the 15 `KeyRoot` values. -/
def rootMidiValue : KeyRoot → Nat
  | .C => 0 | .Cs => 1 | .D => 2 | .Eb => 3 | .E => 4 | .F => 5
  | .Fs => 6 | .G => 7 | .Ab => 8 | .A => 9 | .Bb => 10 | .B => 11
  | .Db => 1 | .Gb => 6 | .Cb => 11

/-- `MAJOR_INTERVALS` in `logic.ts`. -/
def MAJOR_INTERVALS : List Nat := [0, 2, 4, 5, 7, 9, 11]

/-- `MINOR_INTERVALS` (natural minor) in `logic.ts`. -/
def MINOR_INTERVALS : List Nat := [0, 2, 3, 5, 7, 8, 10]

/-- `getScalePitchClasses` in `logic.ts`. -/
def getScalePitchClasses (root : KeyRoot) (type : KeyType) : List Nat :=
  let rootMidi := rootMidiValue root
  let intervals := if type = KeyType.major then MAJOR_INTERVALS else MINOR_INTERVALS
  intervals.map (fun interval => (rootMidi + interval) % 12)

/-- `shouldUseFlats` in `logic.ts`. -/
def shouldUseFlats (root : KeyRoot) (type : KeyType) : Bool :=
  if root ∈ [KeyRoot.F, .Bb, .Eb, .Ab, .Db, .Gb, .Cb] then true
  else if type = KeyType.minor ∧ root ∈ [KeyRoot.D, .G, .C, .F, .Bb, .Eb] then true
  else false

/-- `NOTE_NAMES_SHARP` in `logic.ts`
(`['C', 'C#', 'D', 'D#', 'E', 'F', 'F#', 'G', 'G#', 'A', 'A#', 'B']`). -/
def NOTE_NAMES_SHARP : List String :=
  ["C", "C#", "D", "D#", "E", "F"] ++ ["F#", "G", "G#", "A", "A#", "B"]

/-- `NOTE_NAMES_FLAT` in `logic.ts`. -/
def NOTE_NAMES_FLAT : List String :=
  ["C", "Db", "D", "Eb", "E", "F", "Gb", "G", "Ab", "A", "Bb", "B"]

/-- The table lookup of `midiToNote`: the raw name of a pitch in the
sharp or flat dictionary, selected by `shouldUseFlats`. -/
def rawNoteName (midi : Nat) (root : KeyRoot) (type : KeyType) : String :=
  (if shouldUseFlats root type then NOTE_NAMES_FLAT else NOTE_NAMES_SHARP).getD (midi % 12) "C"

/-- The accidental-parsing step of `midiToNote`: `"C#" ↦ ("C", '#')`,
`"Bb" ↦ ("B", 'b')`, a plain letter is returned unchanged with no accidental. -/
def parseAccidental (rawName : String) : String × Option Acc :=
  if rawName.data.contains '#' then (String.mk (rawName.data.take 1), some Acc.sharp)
  else if rawName.data.contains 'b' ∧ rawName.data.length > 1 then
    (String.mk (rawName.data.take 1), some Acc.flat)
  else (rawName, none)

/-- `midiToNote` in `logic.ts`. -/
def midiToNote (midi : Nat) (root : KeyRoot) (type : KeyType) : Note :=
  let octave : Int := (midi : Int) / 12 - 1
  let pitchClass : Nat := midi % 12
  let rawName := rawNoteName midi root type
  let name := (parseAccidental rawName).1
  let acc := (parseAccidental rawName).2
  let diatonicPitchClasses := getScalePitchClasses root type
  let isDiatonic := diatonicPitchClasses.contains pitchClass
  let accidental := if isDiatonic = false ∧ acc = none then some Acc.natural else acc
  { midi := midi, name := name, octave := octave, accidental := accidental }

/-- Base pitch-class of a letter name, for decoding a spelled note. -/
def letterPitchClass : String → Option Int
  | "C" => some 0 | "D" => some 2 | "E" => some 4 | "F" => some 5
  | "G" => some 7 | "A" => some 9 | "B" => some 11
  | _ => none

/-- Semitone shift of an accidental marker. -/
def accShift : Option Acc → Int
  | some Acc.sharp => 1
  | some Acc.flat => -1
  | some Acc.natural => 0
  | none => 0

/-- Decode a spelled note back to an absolute pitch:
letter base class, plus accidental shift, plus `12 * (octave + 1)`. -/
def decodeNote (n : Note) : Option Int :=
  (letterPitchClass n.name).map (fun base => base + accShift n.accidental + 12 * (n.octave + 1))

/-- Pitch-class part of the decoding (letter base plus accidental shift). -/
def pcValue (n : Note) : Option Int :=
  (letterPitchClass n.name).map (fun base => base + accShift n.accidental)

/-- The seven letter names a spelled note may carry. -/
def letterNames : List String := ["C", "D", "E", "F", "G", "A", "B"]

/-- A spelled note is conventional when its letter is one of A–G and it is
none of the spellings Cb, Fb, E#, B#. -/
def conventionalSpelling (n : Note) : Bool :=
  letterNames.contains n.name &&
    !((n.name = "C" || n.name = "F") && n.accidental = some Acc.flat) &&
    !((n.name = "E" || n.name = "B") && n.accidental = some Acc.sharp)

/-! ### Exercise generation

`Math.random()` is modelled as an infinite stream of draws in `[0, 1)` read
at an explicit cursor position, so that every function below is a pure
function of the stream; each draw is the numerator of a multiple of `2⁻⁵³`,
exactly the values `Math.random()` ranges over. -/

/-- Keyboard constraints in `logic.ts`: F3 for the treble clef. -/
def TREBLE_MIN : Nat := 53

/-- E6. -/
def TREBLE_MAX : Nat := 88

/-- F1. -/
def BASS_MIN : Nat := 29

/-- G4. -/
def BASS_MAX : Nat := 67

/-- Lower bound of the clef's pitch range. -/
def clefMin (c : ClefType) : Nat := if c = ClefType.treble then TREBLE_MIN else BASS_MIN

/-- Upper bound of the clef's pitch range. -/
def clefMax (c : ClefType) : Nat := if c = ClefType.treble then TREBLE_MAX else BASS_MAX

/-- Common denominator of the values of `Math.random()`: every double it
returns is `v / 2⁵³` for an integer `0 ≤ v < 2⁵³`. -/
def RANDOM_DENOM : Nat := 2 ^ 53

/-- All draws of a `Math.random()` stream lie in `[0, 1)`:
each numerator is `< 2⁵³`. -/
def streamOk (s : Nat → Nat) : Prop := ∀ n, s n < RANDOM_DENOM

/-- `getRandomInt` in `logic.ts`:
`Math.floor(Math.random() * (max - min + 1)) + min`, with the draw
`v / 2⁵³` passed by its numerator `v`
(`⌊(v / 2⁵³) · n⌋ = v · n / 2⁵³` in integer division). -/
def getRandomInt (lo hi : Nat) (v : Nat) : Nat :=
  v * (hi - lo + 1) / RANDOM_DENOM + lo

/-- `isValidNote` in `generateExercise`: in strict mode (no accidentals) the
pitch-class must be diatonic to the key; in chromatic mode any pitch is valid. -/
def isValidNote (settings : GameSettings) (midi : Nat) : Bool :=
  if settings.useAccidentals = false then
    (getScalePitchClasses settings.keyRoot settings.keyType).contains (midi % 12)
  else true

/-- The ascending fallback scan of `getValidRandomMidi`
(`for (let i = min; i <= max; i++) if (isValidNote(i)) return i`). -/
def scanAux (valid : Nat → Bool) : Nat → Nat → Option Nat
  | _, 0 => none
  | i, cnt + 1 => if valid i then some i else scanAux valid (i + 1) cnt

/-- Fallback of `getValidRandomMidi`: first valid pitch of `[lo, hi]`
ascending, or `lo` when none is valid. -/
def scanFirstValid (valid : Nat → Bool) (lo hi : Nat) : Nat :=
  (scanAux valid lo (hi + 1 - lo)).getD lo

/-- The bounded random loop of `getValidRandomMidi`
(`while attempts < 100`), returning the pitch and the new stream position. -/
def grmAux (valid : Nat → Bool) (lo hi : Nat) (s : Nat → Nat) : Nat → Nat → Nat × Nat
  | pos, 0 => (scanFirstValid valid lo hi, pos)
  | pos, fuel + 1 =>
      let midi := getRandomInt lo hi (s pos)
      if valid midi then (midi, pos + 1) else grmAux valid lo hi s (pos + 1) fuel

/-- `getValidRandomMidi` in `logic.ts`: up to 100 random attempts, then the
ascending scan, then the range minimum. -/
def getValidRandomMidi (valid : Nat → Bool) (lo hi : Nat) (s : Nat → Nat) (pos : Nat) :
    Nat × Nat :=
  grmAux valid lo hi s pos 100

/-- Single-note mode loop of `generateExercise`: `count` items, each one
randomly drawn valid pitch. -/
def genSingles (settings : GameSettings) (lo hi : Nat) (s : Nat → Nat) :
    Nat → Nat → List ExerciseItem × Nat
  | pos, 0 => ([], pos)
  | pos, count + 1 =>
      let rm := getValidRandomMidi (isValidNote settings) lo hi s pos
      let rest := genSingles settings lo hi s rm.2 count
      ({ notes := [midiToNote rm.1 settings.keyRoot settings.keyType],
         status := Status.pending } :: rest.1, rest.2)

/-- Strict-mode chord construction of `generateExercise`: stack a third
(+3 preferred, else +4), a fifth (+7, else +6, else omitted) and, when the
seventh flag is set, a seventh (+11, else +10, else +9, else omitted) on the
root, each gated on diatonic membership; `none` when neither third fits
(the `i--; continue` retry case). -/
def buildChordStrict (dia : List Nat) (root : Nat) (isSeventh : Bool) : Option (List Nat) :=
  let third? : Option Nat :=
    if dia.contains ((root + 3) % 12) then some (root + 3)
    else if dia.contains ((root + 4) % 12) then some (root + 4)
    else none
  match third? with
  | none => none
  | some third =>
      let withFifth :=
        if dia.contains ((root + 7) % 12) then [root, third, root + 7]
        else if dia.contains ((root + 6) % 12) then [root, third, root + 6]
        else [root, third]
      let chord :=
        if isSeventh then
          if dia.contains ((root + 11) % 12) then withFifth ++ [root + 11]
          else if dia.contains ((root + 10) % 12) then withFifth ++ [root + 10]
          else if dia.contains ((root + 9) % 12) then withFifth ++ [root + 9]
          else withFifth
        else withFifth
      some chord

/-- Chromatic-mode chord construction of `generateExercise`: root, coin-flip
third (+4 or +3), perfect fifth (+7), and when the seventh flag is set a
coin-flip seventh (+11 or +10). -/
def buildChordChromatic (root : Nat) (thirdFlip : Bool) (isSeventh : Bool)
    (seventhFlip : Bool) : List Nat :=
  let third := if thirdFlip then 4 else 3
  let base := [root, root + third, root + 7]
  if isSeventh then base ++ [root + 10 + (if seventhFlip then 1 else 0)] else base

/-- One iteration of the chord-mode loop of `generateExercise`: draw a root
in `[min, max − 11]`, flip the seventh coin, build the chord (strict or
chromatic), and re-validate in strict mode.  Returns the accepted chord
pitches (or `none` for an `i--; continue` retry) and the new stream
position. -/
def chordAttempt (settings : GameSettings) (lo hi : Nat) (s : Nat → Nat) (pos : Nat) :
    Option (List Nat) × Nat :=
  let dia := getScalePitchClasses settings.keyRoot settings.keyType
  let safeMax := hi - 11
  let rootDraw := getValidRandomMidi (isValidNote settings) lo safeMax s pos
  let root := rootDraw.1
  let pos1 := rootDraw.2
  let isSeventh := decide (7 * RANDOM_DENOM < 10 * s pos1)
  let pos2 := pos1 + 1
  let built : Option (List Nat × Nat) :=
    if settings.useAccidentals = false then
      match buildChordStrict dia root isSeventh with
      | none => none
      | some chordMidis => some (chordMidis, pos2)
    else
      let thirdFlip := decide (RANDOM_DENOM < 2 * s pos2)
      if isSeventh then
        some (buildChordChromatic root thirdFlip isSeventh
                (decide (RANDOM_DENOM < 2 * s (pos2 + 1))), pos2 + 2)
      else
        some (buildChordChromatic root thirdFlip isSeventh false, pos2 + 1)
  match built with
  | none => (none, pos2)
  | some (chordMidis, pos3) =>
      if !settings.useAccidentals &&
          chordMidis.any (fun mm => !isValidNote settings mm) then
        (none, pos3)
      else (some chordMidis, pos3)

/-- The item built from an accepted chord. -/
def chordItem (settings : GameSettings) (chordMidis : List Nat) : ExerciseItem :=
  { notes := chordMidis.map (fun mm => midiToNote mm settings.keyRoot settings.keyType),
    status := Status.pending }

/-- Chord-mode loop of `generateExercise`.  `rem` counts the items still to
produce (the loop variable `i` counts accepted items only); `fuel` bounds the
total number of loop iterations including the `i--; continue` retries, and
the result is `none` when it runs out. -/
def genChords (settings : GameSettings) (lo hi : Nat) (s : Nat → Nat) :
    Nat → Nat → Nat → Option (List ExerciseItem)
  | _, 0, _ => some []
  | _, _ + 1, 0 => none
  | pos, rem + 1, fuel + 1 =>
      match chordAttempt settings lo hi s pos with
      | (none, pos3) => genChords settings lo hi s pos3 (rem + 1) fuel
      | (some chordMidis, pos3) =>
          (genChords settings lo hi s pos3 rem fuel).map
            (fun rest => chordItem settings chordMidis :: rest)

/-- One beam group of `generateExercise`: `count` single-note items, each a
random valid pitch with duration `"16"` and the group's beam index. -/
def genBeamNotes (settings : GameSettings) (lo hi : Nat) (s : Nat → Nat)
    (groupIndex : Nat) : Nat → Nat → List ExerciseItem × Nat
  | 0, pos => ([], pos)
  | count + 1, pos =>
      let rm := getValidRandomMidi (isValidNote settings) lo hi s pos
      let note := { midiToNote rm.1 settings.keyRoot settings.keyType with
                      duration := some "16" }
      let rest := genBeamNotes settings lo hi s groupIndex count rm.2
      ({ notes := [note], status := Status.pending, isBeamGroup := true,
         beamGroupIndex := some groupIndex } :: rest.1, rest.2)

/-- Beam-mode loop of `generateExercise`: `groups` beam groups of 4–6 notes
each, with ascending beam indices starting at `idx`. -/
def genBeamGroups (settings : GameSettings) (lo hi : Nat) (s : Nat → Nat) :
    Nat → Nat → Nat → List ExerciseItem × Nat
  | 0, _, pos => ([], pos)
  | groups + 1, idx, pos =>
      let groupSize := getRandomInt 4 6 (s pos)
      let grp := genBeamNotes settings lo hi s idx groupSize (pos + 1)
      let rest := genBeamGroups settings lo hi s groups (idx + 1) grp.2
      (grp.1 ++ rest.1, rest.2)

/-- `generateExercise` in `logic.ts`, over an explicit draw stream.  `fuel`
bounds the chord-mode retry loop; the termination theorems show that fuel 6
(one per item) always suffices. -/
def generateExercise (fuel : Nat) (settings : GameSettings) (s : Nat → Nat) :
    Option (List ExerciseItem) :=
  let lo := clefMin settings.clef
  let hi := clefMax settings.clef
  match settings.mode with
  | GameMode.single => some (genSingles settings lo hi s 0 6).1
  | GameMode.chords => genChords settings lo hi s 0 6 fuel
  | GameMode.beams =>
      let numGroups := getRandomInt 3 4 (s 0)
      some (genBeamGroups settings lo hi s numGroups 0 1).1

/-- Lexicographic comparison of character lists by code point, the order
JavaScript uses on (UTF-16) strings. -/
def lexLt : List Char → List Char → Bool
  | [], [] => false
  | [], _ :: _ => true
  | _ :: _, [] => false
  | c :: cs, d :: ds => if c < d then true else if d < c then false else lexLt cs ds

/-- The comparison used by the judging collaborator `submitChord` in
`App.tsx`: JavaScript's default `Array.sort` converts the numbers to decimal
strings and compares those lexicographically (`a ≤ b` as strings). -/
def jsLe (a b : Nat) : Prop :=
  lexLt (Nat.repr b).data (Nat.repr a).data = false

instance : DecidableRel jsLe := fun a b => by
  unfold jsLe
  infer_instance

/-- The target-ordering step of `submitChord`: sort by the string order. -/
def jsSort (l : List Nat) : List Nat :=
  l.insertionSort jsLe

/-- Plain numeric ascending sort. -/
def numSort (l : List Nat) : List Nat :=
  l.insertionSort (fun a b => a ≤ b)

/-- Every note of the item lies in `[lo, hi]` and, in strict mode (no
accidentals), its pitch-class is diatonic to the active key. -/
def itemWithinPolicy (settings : GameSettings) (lo hi : Nat) (it : ExerciseItem) : Prop :=
  ∀ note ∈ it.notes,
    lo ≤ note.midi ∧ note.midi ≤ hi ∧
    (settings.useAccidentals = false →
      (getScalePitchClasses settings.keyRoot settings.keyType).contains
        (note.midi % 12) = true)

/-- The item is a chord built by the documented algorithm: a valid random
root in `[min, max − 11]`, stacked by `buildChordStrict` in strict mode and
by `buildChordChromatic` (with its two coin flips) in chromatic mode. -/
def chordShaped (settings : GameSettings) (s : Nat → Nat) (it : ExerciseItem) : Prop :=
  ∃ (pos0 root : Nat) (i7 : Bool) (chordMidis : List Nat),
    root = (getValidRandomMidi (isValidNote settings) (clefMin settings.clef)
      (clefMax settings.clef - 11) s pos0).1 ∧
    clefMin settings.clef ≤ root ∧ root ≤ clefMax settings.clef - 11 ∧
    it = chordItem settings chordMidis ∧
    (settings.useAccidentals = false →
      buildChordStrict (getScalePitchClasses settings.keyRoot settings.keyType) root i7
        = some chordMidis) ∧
    (settings.useAccidentals = true →
      ∃ f3 f7, chordMidis = buildChordChromatic root f3 i7 f7)

/-- The chord item's pitches are stored strictly ascending, lie in `[29, 88]`
(two decimal digits), and both the numeric sort and the judge's
string-comparison sort leave them unchanged. -/
def chordOrdered (it : ExerciseItem) : Prop :=
  List.Chain' (· < ·) (it.notes.map Note.midi) ∧
  jsSort (it.notes.map Note.midi) = it.notes.map Note.midi ∧
  numSort (it.notes.map Note.midi) = it.notes.map Note.midi ∧
  ∀ p ∈ it.notes.map Note.midi, 29 ≤ p ∧ p ≤ 88

/-- Beam-mode output decomposes into 3–4 groups of 4–6 single-note items,
with contiguous ascending beam indices from 0 and duration `"16"`. -/
def beamStructure (items : List ExerciseItem) : Prop :=
  ∃ gls : List (List ExerciseItem),
    items = gls.join ∧ 3 ≤ gls.length ∧ gls.length ≤ 4 ∧
    items.length = (gls.map List.length).sum ∧
    ∀ j (hj : j < gls.length),
      4 ≤ (gls.get ⟨j, hj⟩).length ∧ (gls.get ⟨j, hj⟩).length ≤ 6 ∧
      ∀ it ∈ gls.get ⟨j, hj⟩,
        it.isBeamGroup = true ∧ it.beamGroupIndex = some j ∧
        ∃ note, it.notes = [note] ∧ note.duration = some "16"

/-- The constant draw stream of value one half (numerator `2⁵²`), used to
exercise the theorems on concrete runs. -/
def halfStream : Nat → Nat := fun _ => 2 ^ 52

/-- The spec's example settings: treble clef, D major, strict, single-note. -/
def dMajorSingleSettings : GameSettings :=
  { clef := ClefType.treble, useAccidentals := false, mode := GameMode.single,
    keyRoot := KeyRoot.D, keyType := KeyType.major }

/-- Chromatic chord-mode settings in C major, used on concrete runs. -/
def chromaticChordSettings : GameSettings :=
  { clef := ClefType.treble, useAccidentals := true, mode := GameMode.chords,
    keyRoot := KeyRoot.C, keyType := KeyType.major }

/-- Strict chord-mode settings in C major, used on concrete runs. -/
def strictChordSettings : GameSettings :=
  { clef := ClefType.treble, useAccidentals := false, mode := GameMode.chords,
    keyRoot := KeyRoot.C, keyType := KeyType.major }

/-- Strict beam-mode settings in C major, used on concrete runs. -/
def beamSettings : GameSettings :=
  { clef := ClefType.treble, useAccidentals := false, mode := GameMode.beams,
    keyRoot := KeyRoot.C, keyType := KeyType.major }

theorem midiToNote_name_mod (m : Nat) (r : KeyRoot) (t : KeyType) :
    (midiToNote m r t).name = (midiToNote (m % 12) r t).name := by
  simp [midiToNote, rawNoteName, Nat.mod_mod_of_dvd m dvd_rfl]

theorem midiToNote_acc_mod (m : Nat) (r : KeyRoot) (t : KeyType) :
    (midiToNote m r t).accidental = (midiToNote (m % 12) r t).accidental := by
  simp [midiToNote, rawNoteName, Nat.mod_mod_of_dvd m dvd_rfl]

theorem pcValue_midiToNote_fin :
    ∀ (pc : Fin 12) (r : KeyRoot) (t : KeyType),
      pcValue (midiToNote pc.val r t) = some (pc.val : Int) := by decide

theorem pcValue_midiToNote (m : Nat) (r : KeyRoot) (t : KeyType) :
    pcValue (midiToNote m r t) = some ((m % 12 : Nat) : Int) := by
  have h : pcValue (midiToNote m r t) = pcValue (midiToNote (m % 12) r t) := by
    unfold pcValue
    rw [midiToNote_name_mod, midiToNote_acc_mod]
  rw [h]
  exact pcValue_midiToNote_fin ⟨m % 12, Nat.mod_lt _ (by norm_num)⟩ r t

theorem decodeNote_eq_pcValue (n : Note) :
    decodeNote n = (pcValue n).map (fun v => v + 12 * (n.octave + 1)) := by
  unfold decodeNote pcValue
  cases letterPitchClass n.name <;> simp

theorem getRandomInt_bounds (lo hi : Nat) (v : Nat) (hv : v < RANDOM_DENOM)
    (hle : lo ≤ hi) : lo ≤ getRandomInt lo hi v ∧ getRandomInt lo hi v ≤ hi := by
  unfold getRandomInt
  refine ⟨Nat.le_add_left _ _, ?_⟩
  have h1 : v * (hi - lo + 1) < RANDOM_DENOM * (hi - lo + 1) :=
    Nat.mul_lt_mul_of_lt_of_le hv (le_refl _) (by omega)
  have h2 : v * (hi - lo + 1) / RANDOM_DENOM < hi - lo + 1 :=
    Nat.div_lt_of_lt_mul h1
  omega

theorem scanAux_eq_none (valid : Nat → Bool) (cnt : Nat) : ∀ i : Nat,
    scanAux valid i cnt = none ↔ ∀ j, i ≤ j → j < i + cnt → valid j = false := by
  induction cnt with
  | zero => intro i; simp [scanAux]; omega
  | succ n ih =>
      intro i
      unfold scanAux
      by_cases hv : valid i = true
      · simp [hv]
        exact ⟨i, le_refl i, by omega, hv⟩
      · simp at hv
        simp [hv, ih (i + 1)]
        constructor
        · intro h j hij hlt
          rcases Nat.eq_or_lt_of_le hij with rfl | hlt2
          · exact hv
          · exact h j hlt2 (by omega)
        · intro h j hij hlt
          exact h j (by omega) (by omega)

theorem scanAux_eq_some (valid : Nat → Bool) (cnt : Nat) : ∀ i x : Nat,
    scanAux valid i cnt = some x →
      i ≤ x ∧ x < i + cnt ∧ valid x = true ∧ ∀ j, i ≤ j → j < x → valid j = false := by
  induction cnt with
  | zero => intro i x h; simp [scanAux] at h
  | succ n ih =>
      intro i x h
      unfold scanAux at h
      by_cases hv : valid i = true
      · simp [hv] at h
        subst h
        exact ⟨le_refl i, by omega, hv, fun j h1 h2 => by omega⟩
      · simp only [Bool.not_eq_true] at hv
        simp [hv] at h
        obtain ⟨h1, h2, h3, h4⟩ := ih (i + 1) x h
        refine ⟨by omega, by omega, h3, fun j hj1 hj2 => ?_⟩
        rcases Nat.eq_or_lt_of_le hj1 with rfl | hlt2
        · exact hv
        · exact h4 j hlt2 hj2

theorem scanFirstValid_spec (valid : Nat → Bool) (lo hi : Nat)
    (hex : ∃ p, lo ≤ p ∧ p ≤ hi ∧ valid p = true) :
    lo ≤ scanFirstValid valid lo hi ∧ scanFirstValid valid lo hi ≤ hi ∧
      valid (scanFirstValid valid lo hi) = true ∧
      ∀ j, lo ≤ j → j < scanFirstValid valid lo hi → valid j = false := by
  obtain ⟨p, hp1, hp2, hp3⟩ := hex
  unfold scanFirstValid
  cases hs : scanAux valid lo (hi + 1 - lo) with
  | none =>
      exfalso
      exact absurd hp3 (by simp [(scanAux_eq_none valid _ lo).mp hs p hp1 (by omega)])
  | some x =>
      obtain ⟨h1, h2, h3, h4⟩ := scanAux_eq_some valid _ lo x hs
      simpa using ⟨h1, by omega, h3, h4⟩

theorem scanFirstValid_bounds (valid : Nat → Bool) (lo hi : Nat) (hle : lo ≤ hi) :
    lo ≤ scanFirstValid valid lo hi ∧ scanFirstValid valid lo hi ≤ hi := by
  unfold scanFirstValid
  cases hs : scanAux valid lo (hi + 1 - lo) with
  | none => simp [hle]
  | some x =>
      obtain ⟨h1, h2, _, _⟩ := scanAux_eq_some valid _ lo x hs
      simp only [Option.getD_some]
      omega

theorem grmAux_spec (valid : Nat → Bool) (lo hi : Nat) (s : Nat → Nat) :
    ∀ fuel pos,
      (∃ k, k < fuel ∧
          grmAux valid lo hi s pos fuel = (getRandomInt lo hi (s (pos + k)), pos + k + 1) ∧
          valid (getRandomInt lo hi (s (pos + k))) = true ∧
          ∀ j, j < k → valid (getRandomInt lo hi (s (pos + j))) = false) ∨
      ((∀ k, k < fuel → valid (getRandomInt lo hi (s (pos + k))) = false) ∧
        grmAux valid lo hi s pos fuel = (scanFirstValid valid lo hi, pos + fuel)) := by
  intro fuel
  induction fuel with
  | zero =>
      intro pos
      right
      exact ⟨fun k hk => absurd hk (by omega), by simp [grmAux]⟩
  | succ n ih =>
      intro pos
      unfold grmAux
      by_cases hv : valid (getRandomInt lo hi (s pos)) = true
      · left
        refine ⟨0, by omega, ?_, ?_, fun j hj => absurd hj (by omega)⟩
        · simp [hv]
        · simpa using hv
      · simp only [Bool.not_eq_true] at hv
        simp only [hv, Bool.false_eq_true, if_false]
        rcases ih (pos + 1) with ⟨k, hk, heq, hval, hprev⟩ | ⟨hall, heq⟩
        · left
          refine ⟨k + 1, by omega, ?_, ?_, ?_⟩
          · have harith : pos + 1 + k = pos + (k + 1) := by omega
            rw [harith] at heq
            simpa [Nat.add_assoc] using heq
          · have harith : pos + 1 + k = pos + (k + 1) := by omega
            rwa [harith] at hval
          · intro j hj
            cases j with
            | zero => simpa using hv
            | succ jj =>
                have harith : pos + 1 + jj = pos + (jj + 1) := by omega
                have := hprev jj (by omega)
                rwa [harith] at this
        · right
          constructor
          · intro k hk
            cases k with
            | zero => simpa using hv
            | succ kk =>
                have harith : pos + 1 + kk = pos + (kk + 1) := by omega
                have := hall kk (by omega)
                rwa [harith] at this
          · have harith : pos + 1 + n = pos + (n + 1) := by omega
            simp [heq, harith]

theorem getValidRandomMidi_bounds (valid : Nat → Bool) (lo hi : Nat) (s : Nat → Nat)
    (pos : Nat) (hs : streamOk s) (hle : lo ≤ hi) :
    lo ≤ (getValidRandomMidi valid lo hi s pos).1 ∧
      (getValidRandomMidi valid lo hi s pos).1 ≤ hi := by
  unfold getValidRandomMidi
  rcases grmAux_spec valid lo hi s 100 pos with ⟨k, _, heq, _, _⟩ | ⟨_, heq⟩
  · rw [heq]
    exact getRandomInt_bounds lo hi (s (pos + k)) (hs (pos + k)) hle
  · rw [heq]
    exact scanFirstValid_bounds valid lo hi hle

theorem getValidRandomMidi_valid (valid : Nat → Bool) (lo hi : Nat) (s : Nat → Nat)
    (pos : Nat) (hs : streamOk s) (hle : lo ≤ hi)
    (hex : ∃ p, lo ≤ p ∧ p ≤ hi ∧ valid p = true) :
    lo ≤ (getValidRandomMidi valid lo hi s pos).1 ∧
      (getValidRandomMidi valid lo hi s pos).1 ≤ hi ∧
      valid (getValidRandomMidi valid lo hi s pos).1 = true := by
  unfold getValidRandomMidi
  rcases grmAux_spec valid lo hi s 100 pos with ⟨k, _, heq, hval, _⟩ | ⟨_, heq⟩
  · rw [heq]
    obtain ⟨hb1, hb2⟩ :=
      getRandomInt_bounds lo hi (s (pos + k)) (hs (pos + k)) hle
    exact ⟨hb1, hb2, hval⟩
  · rw [heq]
    obtain ⟨h1, h2, h3, _⟩ := scanFirstValid_spec valid lo hi hex
    exact ⟨h1, h2, h3⟩

theorem scale_contains_root (r : KeyRoot) (t : KeyType) :
    (getScalePitchClasses r t).contains (rootMidiValue r % 12) = true := by
  cases t <;> simp [getScalePitchClasses, MAJOR_INTERVALS, MINOR_INTERVALS] <;> omega

theorem scale_mem_window (lo : Nat) (r : KeyRoot) (t : KeyType) :
    ∃ p, lo ≤ p ∧ p ≤ lo + 11 ∧ (getScalePitchClasses r t).contains (p % 12) = true := by
  refine ⟨lo + ((rootMidiValue r % 12) + 12 - lo % 12) % 12, by omega, by omega, ?_⟩
  have harith : (lo + ((rootMidiValue r % 12) + 12 - lo % 12) % 12) % 12
      = rootMidiValue r % 12 := by omega
  rw [harith]
  exact scale_contains_root r t

theorem scale_third_fact :
    ∀ (r : KeyRoot) (t : KeyType) (pc : Fin 12),
      (getScalePitchClasses r t).contains pc.val = true →
        ((getScalePitchClasses r t).contains ((pc.val + 3) % 12) = true ∧
          (getScalePitchClasses r t).contains ((pc.val + 4) % 12) = false) ∨
        ((getScalePitchClasses r t).contains ((pc.val + 3) % 12) = false ∧
          (getScalePitchClasses r t).contains ((pc.val + 4) % 12) = true) := by decide

theorem scale_fifth_fact :
    ∀ (r : KeyRoot) (t : KeyType) (pc : Fin 12),
      (getScalePitchClasses r t).contains pc.val = true →
        (getScalePitchClasses r t).contains ((pc.val + 7) % 12) = true ∨
        (getScalePitchClasses r t).contains ((pc.val + 6) % 12) = true := by decide

theorem scale_seventh_fact :
    ∀ (r : KeyRoot) (t : KeyType) (pc : Fin 12),
      (getScalePitchClasses r t).contains pc.val = true →
        (getScalePitchClasses r t).contains ((pc.val + 11) % 12) = true ∨
        (getScalePitchClasses r t).contains ((pc.val + 10) % 12) = true ∨
        (getScalePitchClasses r t).contains ((pc.val + 9) % 12) = true := by decide

theorem isValidNote_of_acc (settings : GameSettings)
    (h : settings.useAccidentals = true) (m : Nat) : isValidNote settings m = true := by
  simp [isValidNote, h]

theorem isValidNote_strict (settings : GameSettings)
    (h : settings.useAccidentals = false) (m : Nat) :
    isValidNote settings m =
      (getScalePitchClasses settings.keyRoot settings.keyType).contains (m % 12) := by
  simp [isValidNote, h]

theorem validNote_exists (settings : GameSettings) (lo hi : Nat) (hwin : lo + 11 ≤ hi) :
    ∃ p, lo ≤ p ∧ p ≤ hi ∧ isValidNote settings p = true := by
  cases hacc : settings.useAccidentals with
  | true => exact ⟨lo, le_refl lo, by omega, isValidNote_of_acc settings hacc lo⟩
  | false =>
      obtain ⟨p, h1, h2, h3⟩ :=
        scale_mem_window lo settings.keyRoot settings.keyType
      refine ⟨p, h1, by omega, ?_⟩
      rw [isValidNote_strict settings hacc]
      exact h3

set_option maxHeartbeats 1000000 in
theorem buildChordStrict_shape (dia : List Nat) (root : Nat) (i7 : Bool) (l : List Nat)
    (h : buildChordStrict dia root i7 = some l) :
    l.head? = some root ∧ (∀ m ∈ l, root ≤ m ∧ m ≤ root + 11) ∧
      List.Chain' (· < ·) l ∧
      (∀ m ∈ l, m = root ∨ dia.contains (m % 12) = true) ∧
      2 ≤ l.length ∧ l.length ≤ 4 := by
  unfold buildChordStrict at h
  split_ifs at h
  all_goals obtain rfl := Option.some.inj h
  all_goals refine ⟨rfl, ?_, ?_, ?_, ?_, ?_⟩
  all_goals try simp only [List.cons_append, List.nil_append, List.forall_mem_cons,
    List.forall_mem_nil, and_true, List.chain'_cons, List.chain'_singleton,
    List.mem_cons, List.not_mem_nil, List.length_cons, List.length_nil]
  all_goals first
    | omega
    | (intro m hm
       repeat' rcases hm with rfl | hm
       all_goals first | omega | (left ; rfl) | (right ; assumption))

theorem buildChordStrict_isSome (r : KeyRoot) (t : KeyType) (root : Nat) (i7 : Bool)
    (hroot : (getScalePitchClasses r t).contains (root % 12) = true) :
    (buildChordStrict (getScalePitchClasses r t) root i7).isSome = true := by
  have hmod : root % 12 < 12 := Nat.mod_lt _ (by norm_num)
  have e3 : (root + 3) % 12 = ((root % 12) + 3) % 12 := by omega
  have e4 : (root + 4) % 12 = ((root % 12) + 4) % 12 := by omega
  have h3or4 := scale_third_fact r t ⟨root % 12, hmod⟩ hroot
  rw [← e3, ← e4] at h3or4
  rcases h3or4 with ⟨h3, _⟩ | ⟨h3, h4⟩
  · have h3m : ((root + 3) % 12) ∈ getScalePitchClasses r t := by simpa using h3
    unfold buildChordStrict
    simp [h3m]
  · have h3m : ¬ ((root + 3) % 12) ∈ getScalePitchClasses r t := by simpa using h3
    have h4m : ((root + 4) % 12) ∈ getScalePitchClasses r t := by simpa using h4
    unfold buildChordStrict
    simp [h3m, h4m]

set_option maxHeartbeats 1000000 in
theorem buildChordStrict_length (r : KeyRoot) (t : KeyType) (root : Nat) (i7 : Bool)
    (hroot : (getScalePitchClasses r t).contains (root % 12) = true) (l : List Nat)
    (h : buildChordStrict (getScalePitchClasses r t) root i7 = some l) :
    l.length = if i7 then 4 else 3 := by
  have hmod : root % 12 < 12 := Nat.mod_lt _ (by norm_num)
  have e6 : (root + 6) % 12 = ((root % 12) + 6) % 12 := by omega
  have e7 : (root + 7) % 12 = ((root % 12) + 7) % 12 := by omega
  have e9 : (root + 9) % 12 = ((root % 12) + 9) % 12 := by omega
  have e10 : (root + 10) % 12 = ((root % 12) + 10) % 12 := by omega
  have e11 : (root + 11) % 12 = ((root % 12) + 11) % 12 := by omega
  have h5 := scale_fifth_fact r t ⟨root % 12, hmod⟩ hroot
  have h7th := scale_seventh_fact r t ⟨root % 12, hmod⟩ hroot
  rw [← e7, ← e6] at h5
  rw [← e11, ← e10, ← e9] at h7th
  unfold buildChordStrict at h
  split_ifs at h
  all_goals try exact Option.noConfusion h
  all_goals obtain rfl := Option.some.inj h
  all_goals simp only [List.cons_append, List.nil_append, List.length_cons,
    List.length_nil]
  all_goals simp_all

theorem buildChordChromatic_spec (root : Nat) (f3 : Bool) (i7 : Bool) (f7 : Bool) :
    (buildChordChromatic root f3 i7 f7).head? = some root ∧
      (∀ m ∈ buildChordChromatic root f3 i7 f7, root ≤ m ∧ m ≤ root + 11) ∧
      List.Chain' (· < ·) (buildChordChromatic root f3 i7 f7) ∧
      (buildChordChromatic root f3 i7 f7).length = if i7 then 4 else 3 := by
  unfold buildChordChromatic
  cases f3 <;> cases i7 <;> cases f7 <;> refine ⟨rfl, ?_, ?_, rfl⟩ <;>
    first
      | (intro m hm
         simp at hm
         repeat' rcases hm with rfl | hm
         all_goals omega)
      | (simp [List.chain'_cons]
         try omega)

theorem chordAttempt_strict_eq (settings : GameSettings) (lo hi : Nat) (s : Nat → Nat)
    (pos : Nat) (hacc : settings.useAccidentals = false) :
    chordAttempt settings lo hi s pos =
      (match buildChordStrict (getScalePitchClasses settings.keyRoot settings.keyType)
          (getValidRandomMidi (isValidNote settings) lo (hi - 11) s pos).1
          (decide (7 * RANDOM_DENOM <
            10 * s (getValidRandomMidi (isValidNote settings) lo (hi - 11) s pos).2)) with
       | none => (none, (getValidRandomMidi (isValidNote settings) lo (hi - 11) s pos).2 + 1)
       | some l =>
          if l.any (fun mm => !isValidNote settings mm) = true
          then (none, (getValidRandomMidi (isValidNote settings) lo (hi - 11) s pos).2 + 1)
          else (some l, (getValidRandomMidi (isValidNote settings) lo (hi - 11) s pos).2 + 1)) := by
  unfold chordAttempt
  rw [hacc]
  cases hb : buildChordStrict (getScalePitchClasses settings.keyRoot settings.keyType)
      (getValidRandomMidi (isValidNote settings) lo (hi - 11) s pos).1
      (decide (7 * RANDOM_DENOM <
        10 * s (getValidRandomMidi (isValidNote settings) lo (hi - 11) s pos).2)) with
  | none => simp [hb]
  | some l => simp [hb]

theorem chordAttempt_chromatic_eq (settings : GameSettings) (lo hi : Nat) (s : Nat → Nat)
    (pos : Nat) (hacc : settings.useAccidentals = true) :
    chordAttempt settings lo hi s pos =
      (if decide (7 * RANDOM_DENOM <
            10 * s (getValidRandomMidi (isValidNote settings) lo (hi - 11) s pos).2) = true
       then
        (some (buildChordChromatic
            (getValidRandomMidi (isValidNote settings) lo (hi - 11) s pos).1
            (decide (RANDOM_DENOM <
              2 * s ((getValidRandomMidi (isValidNote settings) lo (hi - 11) s pos).2 + 1)))
            (decide (7 * RANDOM_DENOM <
              10 * s (getValidRandomMidi (isValidNote settings) lo (hi - 11) s pos).2))
            (decide (RANDOM_DENOM <
              2 * s ((getValidRandomMidi (isValidNote settings) lo (hi - 11) s pos).2 + 1 + 1)))),
          (getValidRandomMidi (isValidNote settings) lo (hi - 11) s pos).2 + 1 + 2)
       else
        (some (buildChordChromatic
            (getValidRandomMidi (isValidNote settings) lo (hi - 11) s pos).1
            (decide (RANDOM_DENOM <
              2 * s ((getValidRandomMidi (isValidNote settings) lo (hi - 11) s pos).2 + 1)))
            (decide (7 * RANDOM_DENOM <
              10 * s (getValidRandomMidi (isValidNote settings) lo (hi - 11) s pos).2))
            false),
          (getValidRandomMidi (isValidNote settings) lo (hi - 11) s pos).2 + 1 + 1)) := by
  unfold chordAttempt
  rw [hacc]
  by_cases hi7 : decide (7 * RANDOM_DENOM <
      10 * s (getValidRandomMidi (isValidNote settings) lo (hi - 11) s pos).2) = true
  · simp [hi7]
  · simp only [Bool.not_eq_true] at hi7
    simp [hi7]

theorem chordAttempt_some_props (settings : GameSettings) (lo hi : Nat) (s : Nat → Nat)
    (pos : Nat) (chordMidis : List Nat) (hs : streamOk s) (hle : lo ≤ hi - 11)
    (h : (chordAttempt settings lo hi s pos).1 = some chordMidis) :
    ∃ root i7,
      root = (getValidRandomMidi (isValidNote settings) lo (hi - 11) s pos).1 ∧
      i7 = decide (7 * RANDOM_DENOM <
        10 * s (getValidRandomMidi (isValidNote settings) lo (hi - 11) s pos).2) ∧
      lo ≤ root ∧ root ≤ hi - 11 ∧
      chordMidis.head? = some root ∧
      (∀ m ∈ chordMidis, root ≤ m ∧ m ≤ root + 11) ∧
      List.Chain' (· < ·) chordMidis ∧
      (settings.useAccidentals = false →
        buildChordStrict (getScalePitchClasses settings.keyRoot settings.keyType)
            root i7 = some chordMidis ∧
          ∀ m ∈ chordMidis, isValidNote settings m = true) ∧
      (settings.useAccidentals = true →
        ∃ f3 f7, chordMidis = buildChordChromatic root f3 i7 f7) := by
  obtain ⟨hb1, hb2⟩ :=
    getValidRandomMidi_bounds (isValidNote settings) lo (hi - 11) s pos hs hle
  cases hacc : settings.useAccidentals with
  | false =>
      rw [chordAttempt_strict_eq settings lo hi s pos hacc] at h
      cases hb : buildChordStrict (getScalePitchClasses settings.keyRoot settings.keyType)
          (getValidRandomMidi (isValidNote settings) lo (hi - 11) s pos).1
          (decide (7 * RANDOM_DENOM <
            10 * s (getValidRandomMidi (isValidNote settings) lo (hi - 11) s pos).2)) with
      | none =>
          rw [hb] at h
          simp at h
      | some l =>
          rw [hb] at h
          by_cases hany : l.any (fun mm => !isValidNote settings mm) = true
          · simp [hany] at h
          · simp only [Bool.not_eq_true] at hany
            simp [hany] at h
            subst h
            obtain ⟨hhead, hbounds, hchain, _, _, _⟩ := buildChordStrict_shape _ _ _ _ hb
            refine ⟨_, _, rfl, rfl, hb1, hb2, hhead, hbounds, hchain, fun _ => ⟨hb, ?_⟩,
              fun habs => Bool.noConfusion habs⟩
            intro m hm
            by_contra hcon
            have hmv : (!isValidNote settings m) = true := by simpa using hcon
            have hany2 : l.any (fun mm => !isValidNote settings mm) = true :=
              List.any_eq_true.mpr ⟨m, hm, hmv⟩
            rw [hany2] at hany
            cases hany
  | true =>
      rw [chordAttempt_chromatic_eq settings lo hi s pos hacc] at h
      by_cases hi7 : decide (7 * RANDOM_DENOM <
          10 * s (getValidRandomMidi (isValidNote settings) lo (hi - 11) s pos).2) = true
      · simp only [hi7, if_true] at h
        simp only [Option.some.injEq] at h
        subst h
        obtain ⟨hhead, hbounds, hchain, _⟩ := buildChordChromatic_spec _ _ _ _
        exact ⟨_, _, rfl, hi7.symm, hb1, hb2, hhead, hbounds, hchain,
          fun habs => Bool.noConfusion habs, fun _ => ⟨_, _, rfl⟩⟩
      · simp only [Bool.not_eq_true] at hi7
        simp only [hi7, Bool.false_eq_true, if_false] at h
        simp only [Option.some.injEq] at h
        subst h
        obtain ⟨hhead, hbounds, hchain, _⟩ := buildChordChromatic_spec _ _ _ _
        exact ⟨_, _, rfl, hi7.symm, hb1, hb2, hhead, hbounds, hchain,
          fun habs => Bool.noConfusion habs, fun _ => ⟨_, _, rfl⟩⟩

theorem chordAttempt_accepts (settings : GameSettings) (lo hi : Nat) (s : Nat → Nat)
    (pos : Nat) (hs : streamOk s) (hwin : lo + 22 ≤ hi) :
    ∃ (chordMidis : List Nat) (i7 : Bool),
      (chordAttempt settings lo hi s pos).1 = some chordMidis ∧
      chordMidis.length = (if i7 then 4 else 3) := by
  have hle : lo ≤ hi - 11 := by omega
  cases hacc : settings.useAccidentals with
  | false =>
      obtain ⟨_, _, hvalid⟩ :=
        getValidRandomMidi_valid (isValidNote settings) lo (hi - 11) s pos hs hle
          (validNote_exists settings lo (hi - 11) (by omega))
      have hcont : (getScalePitchClasses settings.keyRoot settings.keyType).contains
          ((getValidRandomMidi (isValidNote settings) lo (hi - 11) s pos).1 % 12) = true := by
        rw [isValidNote_strict settings hacc] at hvalid
        exact hvalid
      obtain ⟨l, hb⟩ := Option.isSome_iff_exists.mp
        (buildChordStrict_isSome settings.keyRoot settings.keyType _
          (decide (7 * RANDOM_DENOM <
            10 * s (getValidRandomMidi (isValidNote settings) lo (hi - 11) s pos).2)) hcont)
      have hlen := buildChordStrict_length settings.keyRoot settings.keyType _ _ hcont l hb
      obtain ⟨_, _, _, hdia, _, _⟩ := buildChordStrict_shape _ _ _ _ hb
      have hany : ¬ (l.any (fun mm => !isValidNote settings mm) = true) := by
        intro hcontra
        obtain ⟨m, hm, hmv⟩ := List.any_eq_true.mp hcontra
        rcases hdia m hm with rfl | hc
        · rw [hvalid] at hmv
          simp at hmv
        · rw [isValidNote_strict settings hacc, hc] at hmv
          simp at hmv
      refine ⟨l, _, ?_, hlen⟩
      rw [chordAttempt_strict_eq settings lo hi s pos hacc, hb]
      simp [hany]
  | true =>
      rw [chordAttempt_chromatic_eq settings lo hi s pos hacc]
      by_cases hi7 : decide (7 * RANDOM_DENOM <
          10 * s (getValidRandomMidi (isValidNote settings) lo (hi - 11) s pos).2) = true
      · rw [if_pos hi7]
        refine ⟨_, decide (7 * RANDOM_DENOM <
          10 * s (getValidRandomMidi (isValidNote settings) lo (hi - 11) s pos).2), rfl, ?_⟩
        exact (buildChordChromatic_spec _ _ _ _).2.2.2
      · rw [if_neg hi7]
        refine ⟨_, decide (7 * RANDOM_DENOM <
          10 * s (getValidRandomMidi (isValidNote settings) lo (hi - 11) s pos).2), rfl, ?_⟩
        exact (buildChordChromatic_spec _ _ _ _).2.2.2
-- end accepts

theorem chordAttempt_strict_accepts (settings : GameSettings) (lo hi : Nat)
    (s : Nat → Nat) (pos : Nat) (hs : streamOk s) (hwin : lo + 22 ≤ hi)
    (hacc : settings.useAccidentals = false) :
    ∃ chordMidis,
      (chordAttempt settings lo hi s pos).1 = some chordMidis ∧
      chordMidis.any (fun mm => !isValidNote settings mm) = false ∧
      (∀ m ∈ chordMidis, isValidNote settings m = true) ∧
      chordMidis.length =
        (if decide (7 * RANDOM_DENOM <
            10 * s (getValidRandomMidi (isValidNote settings) lo (hi - 11) s pos).2)
         then 4 else 3) := by
  have hle : lo ≤ hi - 11 := by omega
  obtain ⟨_, _, hvalid⟩ :=
    getValidRandomMidi_valid (isValidNote settings) lo (hi - 11) s pos hs hle
      (validNote_exists settings lo (hi - 11) (by omega))
  have hcont : (getScalePitchClasses settings.keyRoot settings.keyType).contains
      ((getValidRandomMidi (isValidNote settings) lo (hi - 11) s pos).1 % 12) = true := by
    rw [isValidNote_strict settings hacc] at hvalid
    exact hvalid
  obtain ⟨l, hb⟩ := Option.isSome_iff_exists.mp
    (buildChordStrict_isSome settings.keyRoot settings.keyType _
      (decide (7 * RANDOM_DENOM <
        10 * s (getValidRandomMidi (isValidNote settings) lo (hi - 11) s pos).2)) hcont)
  have hlen := buildChordStrict_length settings.keyRoot settings.keyType _ _ hcont l hb
  obtain ⟨_, _, _, hdia, _, _⟩ := buildChordStrict_shape _ _ _ _ hb
  have hvalidall : ∀ m ∈ l, isValidNote settings m = true := by
    intro m hm
    rcases hdia m hm with rfl | hc
    · exact hvalid
    · rw [isValidNote_strict settings hacc]
      exact hc
  have hany : l.any (fun mm => !isValidNote settings mm) = false := by
    simp only [List.any_eq_false]
    intro m hm
    simp [hvalidall m hm]
  refine ⟨l, ?_, hany, hvalidall, hlen⟩
  rw [chordAttempt_strict_eq settings lo hi s pos hacc, hb]
  simp [hany]

theorem genChords_zero (settings : GameSettings) (lo hi : Nat) (s : Nat → Nat)
    (pos fuel : Nat) : genChords settings lo hi s pos 0 fuel = some [] := by
  unfold genChords
  rfl

theorem genChords_mem (settings : GameSettings) (lo hi : Nat) (s : Nat → Nat) :
    ∀ fuel rem pos items, genChords settings lo hi s pos rem fuel = some items →
      ∀ it ∈ items, ∃ pos0 chordMidis,
        (chordAttempt settings lo hi s pos0).1 = some chordMidis ∧
        it = chordItem settings chordMidis := by
  intro fuel
  induction fuel with
  | zero =>
      intro rem pos items h
      cases rem with
      | zero =>
          rw [genChords_zero] at h
          obtain rfl := (Option.some.inj h).symm
          intro it hit
          simp at hit
      | succ n =>
          unfold genChords at h
          exact Option.noConfusion h
  | succ f ih =>
      intro rem pos items h
      cases rem with
      | zero =>
          rw [genChords_zero] at h
          obtain rfl := (Option.some.inj h).symm
          intro it hit
          simp at hit
      | succ n =>
          unfold genChords at h
          cases hca : chordAttempt settings lo hi s pos with
          | mk copt pos3 =>
              rw [hca] at h
              cases copt with
              | none =>
                  exact ih (n + 1) pos3 items h
              | some c =>
                  simp only [Option.map_eq_some'] at h
                  obtain ⟨rest, hrest, hitems⟩ := h
                  subst hitems
                  intro it hit
                  rcases List.mem_cons.mp hit with rfl | hmem
                  · exact ⟨pos, c, by rw [hca], rfl⟩
                  · exact ih n pos3 rest hrest it hmem

theorem genChords_success (settings : GameSettings) (lo hi : Nat) (s : Nat → Nat)
    (hs : streamOk s) (hwin : lo + 22 ≤ hi) :
    ∀ rem fuel pos, rem ≤ fuel →
      ∃ items, genChords settings lo hi s pos rem fuel = some items ∧
        items.length = rem := by
  intro rem
  induction rem with
  | zero =>
      intro fuel pos _
      exact ⟨[], genChords_zero settings lo hi s pos fuel, rfl⟩
  | succ n ih =>
      intro fuel pos hle2
      obtain ⟨f, rfl⟩ : ∃ f, fuel = f + 1 := ⟨fuel - 1, by omega⟩
      obtain ⟨c, i7, hca1, hlen⟩ := chordAttempt_accepts settings lo hi s pos hs hwin
      obtain ⟨rest, hrest, hrlen⟩ := ih f (chordAttempt settings lo hi s pos).2 (by omega)
      refine ⟨chordItem settings c :: rest, ?_, by simp [hrlen]⟩
      have hpair : chordAttempt settings lo hi s pos
          = (some c, (chordAttempt settings lo hi s pos).2) := by
        rw [← hca1]
      unfold genChords
      rw [hpair]
      simp [hrest]

theorem genSingles_spec (settings : GameSettings) (lo hi : Nat) (s : Nat → Nat)
    (hs : streamOk s) (hwin : lo + 11 ≤ hi) :
    ∀ count pos,
      (genSingles settings lo hi s pos count).1.length = count ∧
      ∀ it ∈ (genSingles settings lo hi s pos count).1,
        it.status = Status.pending ∧ it.isBeamGroup = false ∧
        it.beamGroupIndex = none ∧
        ∃ m, lo ≤ m ∧ m ≤ hi ∧ isValidNote settings m = true ∧
          it.notes = [midiToNote m settings.keyRoot settings.keyType] := by
  intro count
  induction count with
  | zero =>
      intro pos
      refine ⟨rfl, ?_⟩
      intro it hit
      simp [genSingles] at hit
  | succ n ih =>
      intro pos
      obtain ⟨hv1, hv2, hv3⟩ := getValidRandomMidi_valid (isValidNote settings) lo hi s pos
        hs (by omega) (validNote_exists settings lo hi hwin)
      constructor
      · simp only [genSingles, List.length_cons]
        rw [(ih (getValidRandomMidi (isValidNote settings) lo hi s pos).2).1]
      · intro it hit
        simp only [genSingles, List.mem_cons] at hit
        rcases hit with rfl | hmem
        · exact ⟨rfl, rfl, rfl, _, hv1, hv2, hv3, rfl⟩
        · exact (ih (getValidRandomMidi (isValidNote settings) lo hi s pos).2).2 it hmem

theorem genBeamNotes_spec (settings : GameSettings) (lo hi : Nat) (s : Nat → Nat)
    (gi : Nat) (hs : streamOk s) (hwin : lo + 11 ≤ hi) :
    ∀ count pos,
      (genBeamNotes settings lo hi s gi count pos).1.length = count ∧
      ∀ it ∈ (genBeamNotes settings lo hi s gi count pos).1,
        it.status = Status.pending ∧ it.isBeamGroup = true ∧
        it.beamGroupIndex = some gi ∧
        ∃ m, lo ≤ m ∧ m ≤ hi ∧ isValidNote settings m = true ∧
          it.notes = [{ midiToNote m settings.keyRoot settings.keyType with
                          duration := some "16" }] := by
  intro count
  induction count with
  | zero =>
      intro pos
      refine ⟨rfl, ?_⟩
      intro it hit
      simp [genBeamNotes] at hit
  | succ n ih =>
      intro pos
      obtain ⟨hv1, hv2, hv3⟩ := getValidRandomMidi_valid (isValidNote settings) lo hi s pos
        hs (by omega) (validNote_exists settings lo hi hwin)
      constructor
      · simp only [genBeamNotes, List.length_cons]
        rw [(ih (getValidRandomMidi (isValidNote settings) lo hi s pos).2).1]
      · intro it hit
        simp only [genBeamNotes, List.mem_cons] at hit
        rcases hit with rfl | hmem
        · exact ⟨rfl, rfl, rfl, _, hv1, hv2, hv3, rfl⟩
        · exact (ih (getValidRandomMidi (isValidNote settings) lo hi s pos).2).2 it hmem

theorem genBeamGroups_spec (settings : GameSettings) (lo hi : Nat) (s : Nat → Nat)
    (hs : streamOk s) (hwin : lo + 11 ≤ hi) :
    ∀ groups idx pos, ∃ gls : List (List ExerciseItem),
      (genBeamGroups settings lo hi s groups idx pos).1 = gls.join ∧
      gls.length = groups ∧
      ∀ j (hj : j < gls.length),
        (4 ≤ (gls.get ⟨j, hj⟩).length ∧ (gls.get ⟨j, hj⟩).length ≤ 6) ∧
        ∀ it ∈ gls.get ⟨j, hj⟩,
          it.status = Status.pending ∧ it.isBeamGroup = true ∧
          it.beamGroupIndex = some (idx + j) ∧
          ∃ m, lo ≤ m ∧ m ≤ hi ∧ isValidNote settings m = true ∧
            it.notes = [{ midiToNote m settings.keyRoot settings.keyType with
                            duration := some "16" }] := by
  intro groups
  induction groups with
  | zero =>
      intro idx pos
      refine ⟨[], rfl, rfl, ?_⟩
      intro j hj
      simp at hj
  | succ n ih =>
      intro idx pos
      obtain ⟨hg1, hg2⟩ := getRandomInt_bounds 4 6 (s pos) (hs pos) (by omega)
      obtain ⟨hlen, hmem⟩ := genBeamNotes_spec settings lo hi s idx hs hwin
        (getRandomInt 4 6 (s pos)) (pos + 1)
      obtain ⟨gls, hjoin, hglen, hprops⟩ := ih (idx + 1)
        (genBeamNotes settings lo hi s idx (getRandomInt 4 6 (s pos)) (pos + 1)).2
      refine ⟨(genBeamNotes settings lo hi s idx (getRandomInt 4 6 (s pos)) (pos + 1)).1 :: gls,
        ?_, by simp [hglen], ?_⟩
      · simp only [genBeamGroups, List.join]
        rw [hjoin]
        rfl
      · intro j hj
        cases j with
        | zero =>
            refine ⟨⟨?_, ?_⟩, ?_⟩
            · show 4 ≤ (genBeamNotes settings lo hi s idx
                (getRandomInt 4 6 (s pos)) (pos + 1)).1.length
              rw [hlen]
              exact hg1
            · show (genBeamNotes settings lo hi s idx
                (getRandomInt 4 6 (s pos)) (pos + 1)).1.length ≤ 6
              rw [hlen]
              exact hg2
            · intro it hit
              obtain ⟨hp, hb, hbi, m, hm1, hm2, hm3, hnotes⟩ := hmem it hit
              exact ⟨hp, hb, by simpa using hbi, m, hm1, hm2, hm3, hnotes⟩
        | succ jj =>
            have hj2 : jj < gls.length := by
              have := hj
              simp only [List.length_cons] at this
              omega
            obtain ⟨hlens, hmems⟩ := hprops jj hj2
            refine ⟨hlens, ?_⟩
            intro it hit
            obtain ⟨hp, hb, hbi, m, hm1, hm2, hm3, hnotes⟩ := hmems it hit
            refine ⟨hp, hb, ?_, m, hm1, hm2, hm3, hnotes⟩
            rw [hbi]
            congr 1
            omega

theorem clef_bounds (c : ClefType) :
    29 ≤ clefMin c ∧ clefMin c + 22 ≤ clefMax c ∧ clefMax c ≤ 88 := by
  cases c <;> simp [clefMin, clefMax, TREBLE_MIN, TREBLE_MAX, BASS_MIN, BASS_MAX]

theorem midiToNote_midi (m : Nat) (r : KeyRoot) (t : KeyType) :
    (midiToNote m r t).midi = m := rfl

theorem generateExercise_single_eq (fuel : Nat) (settings : GameSettings) (s : Nat → Nat)
    (hmode : settings.mode = GameMode.single) :
    generateExercise fuel settings s =
      some (genSingles settings (clefMin settings.clef) (clefMax settings.clef) s 0 6).1 := by
  unfold generateExercise
  rw [hmode]

theorem generateExercise_chords_eq (fuel : Nat) (settings : GameSettings) (s : Nat → Nat)
    (hmode : settings.mode = GameMode.chords) :
    generateExercise fuel settings s =
      genChords settings (clefMin settings.clef) (clefMax settings.clef) s 0 6 fuel := by
  unfold generateExercise
  rw [hmode]

theorem generateExercise_beams_eq (fuel : Nat) (settings : GameSettings) (s : Nat → Nat)
    (hmode : settings.mode = GameMode.beams) :
    generateExercise fuel settings s =
      some (genBeamGroups settings (clefMin settings.clef) (clefMax settings.clef) s
        (getRandomInt 3 4 (s 0)) 0 1).1 := by
  unfold generateExercise
  rw [hmode]

theorem parseAccidental_cases (str : String) :
    (parseAccidental str).2 = none ∨ (parseAccidental str).2 = some Acc.sharp ∨
      (parseAccidental str).2 = some Acc.flat := by
  unfold parseAccidental
  split
  · simp
  · split <;> simp

/-- C1: round-trip invariant of the note speller: for every pitch 0–127 and
every of the 15 key roots × 2 key types, `midiToNote` returns exactly one
spelled note whose octave is `⌊pitch/12⌋ − 1`, and decoding letter base
pitch-class + accidental shift (+1 for sharp, −1 for flat, 0 for natural or
none) + `12·(octave+1)` reproduces the original pitch exactly. -/
theorem midiToNote_roundtrip (m : Nat) (hm : m ≤ 127) (r : KeyRoot) (t : KeyType) :
    (midiToNote m r t).octave = (m : Int) / 12 - 1 ∧
    decodeNote (midiToNote m r t) = some (m : Int) := by
  refine ⟨rfl, ?_⟩
  rw [decodeNote_eq_pcValue, pcValue_midiToNote]
  have hoct : (midiToNote m r t).octave = (m : Int) / 12 - 1 := rfl
  rw [hoct]
  simp only [Option.map_some']
  congr 1
  omega

/-- Witness for C1 at pitch 60 in C major. -/
theorem midiToNote_roundtrip_witness :
    60 ≤ 127 ∧
      ((midiToNote 60 KeyRoot.C KeyType.major).octave = ((60 : Nat) : Int) / 12 - 1 ∧
        decodeNote (midiToNote 60 KeyRoot.C KeyType.major) = some ((60 : Nat) : Int)) :=
  ⟨by norm_num, midiToNote_roundtrip 60 (by norm_num) KeyRoot.C KeyType.major⟩

/-- C5: natural-marking rule: the spelled accidental is the explicit natural
marker exactly when the pitch-class is not diatonic to the key and the
table-looked-up name parses with no sharp or flat; a parsed sharp or flat is
kept unchanged (the accidental always equals the parsed accidental unless
the natural rule fires, and parsing never yields a natural). Concretely, in
D major pitch 65 (F natural) is marked `n` while pitch 66 is `F` sharp with
no natural marker. -/
theorem midiToNote_natural_marking :
    (∀ (m : Nat) (r : KeyRoot) (t : KeyType),
      ((midiToNote m r t).accidental = some Acc.natural ↔
        ((getScalePitchClasses r t).contains (m % 12) = false ∧
          (parseAccidental (rawNoteName m r t)).2 = none)) ∧
      (midiToNote m r t).accidental =
        (if (getScalePitchClasses r t).contains (m % 12) = false ∧
            (parseAccidental (rawNoteName m r t)).2 = none
          then some Acc.natural else (parseAccidental (rawNoteName m r t)).2)) ∧
    (∀ str : String,
      (parseAccidental str).2 = none ∨ (parseAccidental str).2 = some Acc.sharp ∨
        (parseAccidental str).2 = some Acc.flat) ∧
    (midiToNote 65 KeyRoot.D KeyType.major).accidental = some Acc.natural ∧
    (midiToNote 66 KeyRoot.D KeyType.major).name = "F" ∧
    (midiToNote 66 KeyRoot.D KeyType.major).accidental = some Acc.sharp := by
  refine ⟨fun m r t => ?_, parseAccidental_cases, by decide, by decide, by decide⟩
  have heq : (midiToNote m r t).accidental =
      (if (getScalePitchClasses r t).contains (m % 12) = false ∧
          (parseAccidental (rawNoteName m r t)).2 = none
        then some Acc.natural else (parseAccidental (rawNoteName m r t)).2) := rfl
  refine ⟨?_, heq⟩
  rw [heq]
  split
  · simp_all
  · rename_i hcond
    rcases parseAccidental_cases (rawNoteName m r t) with h | h | h <;> rw [h] <;> simp_all

/-- C10: the speller only emits letters A–G with at most a single accidental
drawn from the two fixed tables — never a double accidental and never the
spellings Cb, Fb, E#, B#.  Pitch-class 11 is always spelled with letter `B`
and pitch-class 4 with letter `E`, and the accidental is `null` exactly when
the pitch-class is diatonic and the table name is accidental-free — so in
particular for roots Gb and Cb these diatonic classes keep letter B / E with
no marker. -/
theorem midiToNote_conventional :
    ∀ (m : Nat) (r : KeyRoot) (t : KeyType),
      conventionalSpelling (midiToNote m r t) = true ∧
      ((midiToNote (12 * (m / 12) + 11) r t).name = "B" ∧
        (midiToNote (12 * (m / 12) + 4) r t).name = "E") ∧
      ((midiToNote m r t).accidental = none ↔
        ((getScalePitchClasses r t).contains (m % 12) = true ∧
          (parseAccidental (rawNoteName m r t)).2 = none)) := by
  have key : ∀ (pc : Fin 12) (r : KeyRoot) (t : KeyType),
      conventionalSpelling (midiToNote pc.val r t) = true ∧
      ((midiToNote pc.val r t).accidental = none ↔
        ((getScalePitchClasses r t).contains (pc.val % 12) = true ∧
          (parseAccidental (rawNoteName pc.val r t)).2 = none)) := by decide
  have keyname : ∀ (r : KeyRoot) (t : KeyType),
      (midiToNote 11 r t).name = "B" ∧ (midiToNote 4 r t).name = "E" := by decide
  intro m r t
  have e11 : (12 * (m / 12) + 11) % 12 = 11 := by omega
  have e4 : (12 * (m / 12) + 4) % 12 = 4 := by omega
  have h11 : (midiToNote (12 * (m / 12) + 11) r t).name = (midiToNote 11 r t).name := by
    rw [midiToNote_name_mod, e11]
  have h4 : (midiToNote (12 * (m / 12) + 4) r t).name = (midiToNote 4 r t).name := by
    rw [midiToNote_name_mod, e4]
  have hmod : m % 12 < 12 := Nat.mod_lt _ (by norm_num)
  have hk := key ⟨m % 12, hmod⟩ r t
  have hname : (midiToNote m r t).name = (midiToNote (m % 12) r t).name :=
    midiToNote_name_mod m r t
  have hacc : (midiToNote m r t).accidental = (midiToNote (m % 12) r t).accidental :=
    midiToNote_acc_mod m r t
  have hraw : rawNoteName m r t = rawNoteName (m % 12) r t := by
    unfold rawNoteName
    rw [Nat.mod_mod_of_dvd m dvd_rfl]
  refine ⟨?_, ⟨h11.trans (keyname r t).1, h4.trans (keyname r t).2⟩, ?_⟩
  · unfold conventionalSpelling at hk ⊢
    rw [hname, hacc]
    exact hk.1
  · rw [hacc, hraw]
    have := hk.2
    rwa [Nat.mod_mod_of_dvd m dvd_rfl] at this

theorem scanFirstValid_none (valid : Nat → Bool) (lo hi : Nat)
    (hnone : ∀ p, lo ≤ p → p ≤ hi → valid p = false) :
    scanFirstValid valid lo hi = lo := by
  unfold scanFirstValid
  rw [(scanAux_eq_none valid _ lo).mpr ?_]
  · rfl
  · intro j h1 h2
    exact hnone j h1 (by omega)

/-- C4: the two-tier fallback of `getValidRandomMidi`: for every `min ≤ max`,
validity predicate and draw stream it returns a pitch in `[min, max]` and is
total; the result is the first of at most 100 random draws that is valid,
otherwise the ascending-scan result; the scan yields the smallest valid pitch
of the range when one exists, and the range minimum when none does — so the
function never fails. -/
theorem getValidRandomMidi_spec (valid : Nat → Bool) (lo hi : Nat) (s : Nat → Nat)
    (pos : Nat) (hle : lo ≤ hi) (hs : streamOk s) :
    lo ≤ (getValidRandomMidi valid lo hi s pos).1 ∧
    (getValidRandomMidi valid lo hi s pos).1 ≤ hi ∧
    ((∃ k, k < 100 ∧ valid (getRandomInt lo hi (s (pos + k))) = true ∧
        (∀ j, j < k → valid (getRandomInt lo hi (s (pos + j))) = false) ∧
        (getValidRandomMidi valid lo hi s pos).1 = getRandomInt lo hi (s (pos + k))) ∨
      ((∀ k, k < 100 → valid (getRandomInt lo hi (s (pos + k))) = false) ∧
        (getValidRandomMidi valid lo hi s pos).1 = scanFirstValid valid lo hi)) ∧
    ((∃ p, lo ≤ p ∧ p ≤ hi ∧ valid p = true) →
      valid (getValidRandomMidi valid lo hi s pos).1 = true ∧
      valid (scanFirstValid valid lo hi) = true ∧
      ∀ j, lo ≤ j → j < scanFirstValid valid lo hi → valid j = false) ∧
    ((∀ p, lo ≤ p → p ≤ hi → valid p = false) →
      (getValidRandomMidi valid lo hi s pos).1 = lo ∧
        scanFirstValid valid lo hi = lo) := by
  obtain ⟨hb1, hb2⟩ := getValidRandomMidi_bounds valid lo hi s pos hs hle
  refine ⟨hb1, hb2, ?_, ?_, ?_⟩
  · rcases grmAux_spec valid lo hi s 100 pos with ⟨k, hk, heq, hval, hprev⟩ | ⟨hall, heq⟩
    · left
      refine ⟨k, hk, hval, hprev, ?_⟩
      unfold getValidRandomMidi
      rw [heq]
    · right
      refine ⟨hall, ?_⟩
      unfold getValidRandomMidi
      rw [heq]
  · intro hex
    obtain ⟨hv1, hv2, hv3⟩ := getValidRandomMidi_valid valid lo hi s pos hs hle hex
    obtain ⟨_, _, hsv, hsmin⟩ := scanFirstValid_spec valid lo hi hex
    exact ⟨hv3, hsv, hsmin⟩
  · intro hnone
    have hscan := scanFirstValid_none valid lo hi hnone
    refine ⟨?_, hscan⟩
    rcases grmAux_spec valid lo hi s 100 pos with ⟨k, hk, heq, hval, _⟩ | ⟨_, heq⟩
    · exfalso
      obtain ⟨hd1, hd2⟩ := getRandomInt_bounds lo hi (s (pos + k)) (hs (pos + k)) hle
      rw [hnone _ hd1 hd2] at hval
      cases hval
    · unfold getValidRandomMidi
      rw [heq, hscan]

/-- Witness for C4: the trivial predicate on the one-point range `[0, 0]`
with the zero stream. -/
theorem getValidRandomMidi_spec_witness :
    (0 : Nat) ≤ 0 ∧ streamOk (fun _ => (0 : Nat)) ∧
      0 ≤ (getValidRandomMidi (fun _ => true) 0 0 (fun _ => (0 : Nat)) 0).1 ∧
      (getValidRandomMidi (fun _ => true) 0 0 (fun _ => (0 : Nat)) 0).1 ≤ 0 := by
  have hstream : streamOk (fun _ => (0 : Nat)) := fun n => by
    simp [RANDOM_DENOM]
  have h := getValidRandomMidi_spec (fun _ => true) 0 0 (fun _ => (0 : Nat)) 0
    (le_refl 0) hstream
  exact ⟨le_refl 0, hstream, h.1, h.2.1⟩

/-- C2: generation postcondition: for every settings and draw stream, every
pitch of every generated item lies in the clef range (`[53,88]` treble,
`[29,67]` bass), and in strict mode every pitch-class is diatonic; the
concrete settings `{treble, D major, strict, single}` always produce exactly
6 items with pitch-classes among D,E,F#,G,A,B,C# and pitches in `[53,88]`. -/
theorem generateExercise_policy (fuel : Nat) (settings : GameSettings) (s : Nat → Nat)
    (hs : streamOk s) (items : List ExerciseItem)
    (h : generateExercise fuel settings s = some items) :
    (∀ it ∈ items,
      itemWithinPolicy settings (clefMin settings.clef) (clefMax settings.clef) it) ∧
    (settings = dMajorSingleSettings →
      items.length = 6 ∧
      ∀ it ∈ items, ∀ note ∈ it.notes,
        53 ≤ note.midi ∧ note.midi ≤ 88 ∧ note.midi % 12 ∈ [2, 4, 6, 7, 9, 11, 1]) := by
  obtain ⟨hc1, hc2, hc3⟩ := clef_bounds settings.clef
  have hmain : ∀ it ∈ items,
      itemWithinPolicy settings (clefMin settings.clef) (clefMax settings.clef) it := by
    cases hmode : settings.mode with
    | single =>
        rw [generateExercise_single_eq fuel settings s hmode] at h
        obtain rfl := (Option.some.inj h).symm
        intro it hit
        obtain ⟨hst, hbg, hbi, m, hm1, hm2, hm3, hnotes⟩ :=
          (genSingles_spec settings (clefMin settings.clef) (clefMax settings.clef) s hs (by omega) 6 0).2 it hit
        intro note hnote
        rw [hnotes] at hnote
        simp only [List.mem_singleton] at hnote
        subst hnote
        rw [midiToNote_midi]
        refine ⟨hm1, hm2, fun hacc => ?_⟩
        rw [isValidNote_strict settings hacc] at hm3
        exact hm3
    | chords =>
        rw [generateExercise_chords_eq fuel settings s hmode] at h
        intro it hit
        obtain ⟨pos0, chordMidis, hca, rfl⟩ :=
          genChords_mem settings (clefMin settings.clef) (clefMax settings.clef) s
            fuel 6 0 items h it hit
        obtain ⟨root, i7, hrootdef, _, hr1, hr2, hhead, hbounds, hchain, hstrict, hchrom⟩ :=
          chordAttempt_some_props settings (clefMin settings.clef) (clefMax settings.clef)
            s pos0 chordMidis hs (by omega) hca
        intro note hnote
        simp only [chordItem, List.mem_map] at hnote
        obtain ⟨m, hm, rfl⟩ := hnote
        rw [midiToNote_midi]
        obtain ⟨hmb1, hmb2⟩ := hbounds m hm
        refine ⟨by omega, by omega, fun hacc => ?_⟩
        have hv := (hstrict hacc).2 m hm
        rw [isValidNote_strict settings hacc] at hv
        exact hv
    | beams =>
        rw [generateExercise_beams_eq fuel settings s hmode] at h
        obtain rfl := (Option.some.inj h).symm
        intro it hit
        obtain ⟨gls, hjoin, hglen, hprops⟩ :=
          genBeamGroups_spec settings (clefMin settings.clef) (clefMax settings.clef) s
            hs (by omega) (getRandomInt 3 4 (s 0)) 0 1
        rw [hjoin] at hit
        obtain ⟨gl, hgl, hitgl⟩ := List.mem_join.mp hit
        obtain ⟨⟨j, hj⟩, rfl⟩ := List.mem_iff_get.mp hgl
        obtain ⟨hst, hbg, hbi, m, hm1, hm2, hm3, hnotes⟩ := (hprops j hj).2 it hitgl
        intro note hnote
        rw [hnotes] at hnote
        simp only [List.mem_singleton] at hnote
        subst hnote
        have hmid : ({ midiToNote m settings.keyRoot settings.keyType with
            duration := some "16" } : Note).midi = m := rfl
        rw [hmid]
        refine ⟨hm1, hm2, fun hacc => ?_⟩
        rw [isValidNote_strict settings hacc] at hm3
        exact hm3
  refine ⟨hmain, fun hset => ?_⟩
  subst hset
  rw [generateExercise_single_eq fuel _ s rfl] at h
  obtain rfl := (Option.some.inj h).symm
  refine ⟨(genSingles_spec dMajorSingleSettings (clefMin dMajorSingleSettings.clef)
      (clefMax dMajorSingleSettings.clef) s hs (by decide) 6 0).1, ?_⟩
  intro it hit note hnote
  obtain ⟨hp1, hp2, hp3⟩ := hmain it hit note hnote
  refine ⟨hp1, hp2, ?_⟩
  have hcont := hp3 rfl
  have hscale : getScalePitchClasses dMajorSingleSettings.keyRoot
      dMajorSingleSettings.keyType = [2, 4, 6, 7, 9, 11, 1] := by decide
  rw [hscale] at hcont
  simpa using hcont

/-- Witness for C2: the `{treble, D major, strict, single}` run on the
constant one-half stream yields six B4 (pitch 71) items. -/
theorem generateExercise_policy_witness :
    streamOk halfStream ∧
    generateExercise 6 dMajorSingleSettings halfStream =
      some (List.replicate 6
        { notes := [{ midi := 71, name := "B", octave := 4, accidental := none }],
          status := Status.pending }) ∧
    (List.replicate 6
        ({ notes := [{ midi := 71, name := "B", octave := 4, accidental := none }],
           status := Status.pending } : ExerciseItem)).length = 6 ∧
    ∀ it ∈ List.replicate 6
        ({ notes := [{ midi := 71, name := "B", octave := 4, accidental := none }],
           status := Status.pending } : ExerciseItem),
      ∀ note ∈ it.notes,
        53 ≤ note.midi ∧ note.midi ≤ 88 ∧ note.midi % 12 ∈ [2, 4, 6, 7, 9, 11, 1] := by
  have hstream : streamOk halfStream := fun n => by
    norm_num [halfStream, RANDOM_DENOM]
  have hgen : generateExercise 6 dMajorSingleSettings halfStream =
      some (List.replicate 6
        { notes := [{ midi := 71, name := "B", octave := 4, accidental := none }],
          status := Status.pending }) := by decide
  have h := generateExercise_policy 6 dMajorSingleSettings halfStream hstream _ hgen
  exact ⟨hstream, hgen, (h.2 rfl).1, (h.2 rfl).2⟩

/-- C3: termination with bounded retries: with fuel 6 (one loop iteration per
item, no retry ever consumed) `generateExercise` succeeds for every settings
and every draw stream; the single and chord loops perform exactly 6 accepted
iterations, and from every diatonic pitch-class either the +3 or the +4
third is again diatonic (the fact that makes the chord retry branch
unreachable).  `getValidRandomMidi` is a total function by construction
(100 bounded attempts plus one linear scan — see `getValidRandomMidi_spec`). -/
theorem generateExercise_terminates (fuel : Nat) (settings : GameSettings)
    (s : Nat → Nat) (hs : streamOk s) (hfuel : 6 ≤ fuel) :
    (∃ items, generateExercise fuel settings s = some items ∧
      (settings.mode = GameMode.single → items.length = 6) ∧
      (settings.mode = GameMode.chords → items.length = 6)) ∧
    (∀ (r : KeyRoot) (t : KeyType) (pc : Fin 12),
      (getScalePitchClasses r t).contains pc.val = true →
        (getScalePitchClasses r t).contains ((pc.val + 3) % 12) = true ∨
        (getScalePitchClasses r t).contains ((pc.val + 4) % 12) = true) := by
  constructor
  · obtain ⟨hc1, hc2, hc3⟩ := clef_bounds settings.clef
    cases hmode : settings.mode with
    | single =>
        refine ⟨_, generateExercise_single_eq fuel settings s hmode, fun _ => ?_,
          fun habs => GameMode.noConfusion habs⟩
        exact (genSingles_spec settings (clefMin settings.clef) (clefMax settings.clef)
          s hs (by omega) 6 0).1
    | chords =>
        obtain ⟨items, hgen, hlen⟩ := genChords_success settings (clefMin settings.clef)
          (clefMax settings.clef) s hs (by omega) 6 fuel 0 hfuel
        refine ⟨items, ?_, fun habs => GameMode.noConfusion habs, fun _ => hlen⟩
        rw [generateExercise_chords_eq fuel settings s hmode]
        exact hgen
    | beams =>
        exact ⟨_, generateExercise_beams_eq fuel settings s hmode,
          fun habs => GameMode.noConfusion habs, fun habs => GameMode.noConfusion habs⟩
  · intro r t pc h
    rcases scale_third_fact r t pc h with ⟨h3, _⟩ | ⟨_, h4⟩
    · exact Or.inl h3
    · exact Or.inr h4

/-- Witness for C3: the strict C-major chord run on the constant one-half
stream, with fuel 6. -/
theorem generateExercise_terminates_witness :
    streamOk halfStream ∧ 6 ≤ 6 ∧
      (∃ items, generateExercise 6 strictChordSettings halfStream = some items ∧
        (strictChordSettings.mode = GameMode.single → items.length = 6) ∧
        (strictChordSettings.mode = GameMode.chords → items.length = 6)) := by
  have hstream : streamOk halfStream := fun n => by
    norm_num [halfStream, RANDOM_DENOM]
  exact ⟨hstream, le_refl 6,
    (generateExercise_terminates 6 strictChordSettings halfStream hstream (le_refl 6)).1⟩

/-- C6: chord construction: every generated chord item arises from a valid
random root in `[min, max − 11]` (the next value of `getValidRandomMidi`),
with the strict-mode chord stacked by `buildChordStrict` (+3 third preferred
over +4, +7 fifth over +6 else omitted, +11/+10/+9 seventh else omitted, all
gated on diatonic membership, `none` = discard-and-retry) and the
chromatic-mode chord by `buildChordChromatic` (coin-flip third, fixed +7
fifth, coin-flip seventh when the flag is set). -/
theorem generateExercise_chordShape (fuel : Nat) (settings : GameSettings)
    (s : Nat → Nat) (hs : streamOk s) (hmode : settings.mode = GameMode.chords)
    (items : List ExerciseItem) (h : generateExercise fuel settings s = some items) :
    ∀ it ∈ items, chordShaped settings s it := by
  obtain ⟨hc1, hc2, hc3⟩ := clef_bounds settings.clef
  rw [generateExercise_chords_eq fuel settings s hmode] at h
  intro it hit
  obtain ⟨pos0, chordMidis, hca, rfl⟩ := genChords_mem settings (clefMin settings.clef)
    (clefMax settings.clef) s fuel 6 0 items h it hit
  obtain ⟨root, i7, hrootdef, _, hr1, hr2, _, _, _, hstrict, hchrom⟩ :=
    chordAttempt_some_props settings (clefMin settings.clef) (clefMax settings.clef)
      s pos0 chordMidis hs (by omega) hca
  exact ⟨pos0, root, i7, chordMidis, hrootdef, hr1, hr2, rfl,
    fun hacc => (hstrict hacc).1, hchrom⟩

/-- Witness for C6: the chromatic C-major chord run on the constant one-half
stream yields six F4–G#4–C5 chords. -/
theorem generateExercise_chordShape_witness :
    streamOk halfStream ∧ chromaticChordSettings.mode = GameMode.chords ∧
      ∀ it ∈ List.replicate 6 (chordItem chromaticChordSettings [65, 68, 72]),
        chordShaped chromaticChordSettings halfStream it := by
  have hstream : streamOk halfStream := fun n => by
    norm_num [halfStream, RANDOM_DENOM]
  have hgen : generateExercise 6 chromaticChordSettings halfStream =
      some (List.replicate 6 (chordItem chromaticChordSettings [65, 68, 72])) := by decide
  exact ⟨hstream, rfl,
    generateExercise_chordShape 6 chromaticChordSettings halfStream hstream rfl _ hgen⟩

/-- C7: beam-mode output shape: the items decompose into 3–4 contiguous
groups of 4–6 single-note items each; the total count is the sum of the
group sizes, the beam-group indices ascend contiguously from 0, and every
beam note carries the fixed duration `"16"`. -/
theorem generateExercise_beamShape (fuel : Nat) (settings : GameSettings)
    (s : Nat → Nat) (hs : streamOk s) (hmode : settings.mode = GameMode.beams)
    (items : List ExerciseItem) (h : generateExercise fuel settings s = some items) :
    beamStructure items := by
  obtain ⟨hc1, hc2, hc3⟩ := clef_bounds settings.clef
  rw [generateExercise_beams_eq fuel settings s hmode] at h
  obtain rfl := (Option.some.inj h).symm
  obtain ⟨hn1, hn2⟩ := getRandomInt_bounds 3 4 (s 0) (hs 0) (by omega)
  obtain ⟨gls, hjoin, hglen, hprops⟩ := genBeamGroups_spec settings (clefMin settings.clef)
    (clefMax settings.clef) s hs (by omega) (getRandomInt 3 4 (s 0)) 0 1
  refine ⟨gls, hjoin, by omega, by omega, ?_, ?_⟩
  · rw [hjoin]
    exact List.length_join gls
  · intro j hj
    obtain ⟨⟨hl1, hl2⟩, hmem⟩ := hprops j hj
    refine ⟨hl1, hl2, ?_⟩
    intro it hit
    obtain ⟨hst, hbg, hbi, m, hm1, hm2, hm3, hnotes⟩ := hmem it hit
    refine ⟨hbg, by simpa using hbi, ?_⟩
    exact ⟨_, hnotes, rfl⟩

/-- Witness for C7: the strict C-major beam run on the constant one-half
stream yields 4 groups of 5 sixteenth-note B4 items. -/
theorem generateExercise_beamShape_witness :
    streamOk halfStream ∧ beamSettings.mode = GameMode.beams ∧
      beamStructure ((List.range 4).map (fun g =>
        List.replicate 5
          ({ notes := [{ midi := 71, name := "B", octave := 4, accidental := none,
                         duration := some "16" }],
             status := Status.pending, isBeamGroup := true,
             beamGroupIndex := some g } : ExerciseItem))).join := by
  have hstream : streamOk halfStream := fun n => by
    norm_num [halfStream, RANDOM_DENOM]
  have hgen : generateExercise 6 beamSettings halfStream =
      some ((List.range 4).map (fun g =>
        List.replicate 5
          ({ notes := [{ midi := 71, name := "B", octave := 4, accidental := none,
                         duration := some "16" }],
             status := Status.pending, isBeamGroup := true,
             beamGroupIndex := some g } : ExerciseItem))).join := by decide
  exact ⟨hstream, rfl,
    generateExercise_beamShape 6 beamSettings halfStream hstream rfl _ hgen⟩

set_option maxRecDepth 10000 in
theorem twodigit_jsLe :
    ∀ a b : Fin 100, 10 ≤ a.val → a.val < b.val →
      lexLt (Nat.repr b.val).data (Nat.repr a.val).data = false := by decide

theorem chordMidis_map_midi (settings : GameSettings) (c : List Nat) :
    (chordItem settings c).notes.map Note.midi = c := by
  unfold chordItem
  simp only [List.map_map]
  have hcomp : (Note.midi ∘ fun mm => midiToNote mm settings.keyRoot settings.keyType)
      = id := by
    funext mm
    rfl
  rw [hcomp, List.map_id]

/-- C8: chord ordering agreement with the judge: every generated chord's
pitches are stored strictly ascending, lie in `[29, 88]` (two decimal
digits), and both the numeric ascending sort and the judge's
string-comparison sort (`submitChord`'s default `Array.sort`) leave them
unchanged — so the two orders agree on every generated chord. -/
theorem generateExercise_chordOrder (fuel : Nat) (settings : GameSettings)
    (s : Nat → Nat) (hs : streamOk s) (hmode : settings.mode = GameMode.chords)
    (items : List ExerciseItem) (h : generateExercise fuel settings s = some items) :
    ∀ it ∈ items, chordOrdered it := by
  obtain ⟨hc1, hc2, hc3⟩ := clef_bounds settings.clef
  rw [generateExercise_chords_eq fuel settings s hmode] at h
  intro it hit
  obtain ⟨pos0, chordMidis, hca, rfl⟩ := genChords_mem settings (clefMin settings.clef)
    (clefMax settings.clef) s fuel 6 0 items h it hit
  obtain ⟨root, i7, _, _, hr1, hr2, _, hbounds, hchain, _, _⟩ :=
    chordAttempt_some_props settings (clefMin settings.clef) (clefMax settings.clef)
      s pos0 chordMidis hs (by omega) hca
  have hrange : ∀ p ∈ chordMidis, 29 ≤ p ∧ p ≤ 88 := by
    intro p hp
    obtain ⟨hp1, hp2⟩ := hbounds p hp
    omega
  have hpw : List.Pairwise (· < ·) chordMidis := List.chain'_iff_pairwise.mp hchain
  have hjs : List.Pairwise jsLe chordMidis := by
    refine List.Pairwise.imp_of_mem ?_ hpw
    intro a b ha hb hab
    obtain ⟨ha1, ha2⟩ := hrange a ha
    obtain ⟨hb1, hb2⟩ := hrange b hb
    have := twodigit_jsLe ⟨a, by omega⟩ ⟨b, by omega⟩ (by simpa using by omega)
      (by simpa using hab)
    exact this
  have hle : List.Pairwise (fun a b : Nat => a ≤ b) chordMidis :=
    hpw.imp (fun hab => Nat.le_of_lt hab)
  unfold chordOrdered
  rw [chordMidis_map_midi]
  refine ⟨hchain, ?_, ?_, hrange⟩
  · exact List.Sorted.insertionSort_eq hjs
  · exact List.Sorted.insertionSort_eq hle

/-- Witness for C8: the chords of the chromatic C-major run on the constant
one-half stream. -/
theorem generateExercise_chordOrder_witness :
    streamOk halfStream ∧ chromaticChordSettings.mode = GameMode.chords ∧
      ∀ it ∈ List.replicate 6 (chordItem chromaticChordSettings [65, 68, 72]),
        chordOrdered it := by
  have hstream : streamOk halfStream := fun n => by
    norm_num [halfStream, RANDOM_DENOM]
  have hgen : generateExercise 6 chromaticChordSettings halfStream =
      some (List.replicate 6 (chordItem chromaticChordSettings [65, 68, 72])) := by decide
  exact ⟨hstream, rfl,
    generateExercise_chordOrder 6 chromaticChordSettings halfStream hstream rfl _ hgen⟩

/-- C9 (implicit): in strict mode the omit/retry branches are unreachable.
First, for every major or natural-minor key and every diatonic pitch-class,
exactly one of +3/+4 is diatonic, +7 or +6 is diatonic, and one of
+11/+10/+9 is diatonic.  Second, for every stream position the strict-mode
chord attempt is accepted (never `i--; continue`), its post-construction
revalidation check is `false` (never fails), and the built chord has exactly
4 pitches when the seventh coin flip at that position came up and exactly 3
otherwise.  Consequently every generated strict-mode chord item's note count
is 4 exactly when its own seventh flag (the 0.7-coin at the item's root
draw) was set, and 3 otherwise. -/
theorem strictChord_branches_unreachable :
    (∀ (r : KeyRoot) (t : KeyType) (pc : Fin 12),
      (getScalePitchClasses r t).contains pc.val = true →
        ((((getScalePitchClasses r t).contains ((pc.val + 3) % 12) = true ∧
            (getScalePitchClasses r t).contains ((pc.val + 4) % 12) = false) ∨
          ((getScalePitchClasses r t).contains ((pc.val + 3) % 12) = false ∧
            (getScalePitchClasses r t).contains ((pc.val + 4) % 12) = true)) ∧
          ((getScalePitchClasses r t).contains ((pc.val + 7) % 12) = true ∨
            (getScalePitchClasses r t).contains ((pc.val + 6) % 12) = true) ∧
          ((getScalePitchClasses r t).contains ((pc.val + 11) % 12) = true ∨
            (getScalePitchClasses r t).contains ((pc.val + 10) % 12) = true ∨
            (getScalePitchClasses r t).contains ((pc.val + 9) % 12) = true))) ∧
    (∀ (settings : GameSettings) (s : Nat → Nat) (pos : Nat), streamOk s →
      settings.useAccidentals = false →
      ∃ chordMidis,
        (chordAttempt settings (clefMin settings.clef) (clefMax settings.clef) s pos).1
          = some chordMidis ∧
        chordMidis.any (fun mm => !isValidNote settings mm) = false ∧
        chordMidis.length =
          (if decide (7 * RANDOM_DENOM <
              10 * s (getValidRandomMidi (isValidNote settings) (clefMin settings.clef)
                (clefMax settings.clef - 11) s pos).2)
           then 4 else 3)) ∧
    (∀ (fuel : Nat) (settings : GameSettings) (s : Nat → Nat), streamOk s →
      settings.mode = GameMode.chords → settings.useAccidentals = false →
      ∀ items, generateExercise fuel settings s = some items →
        ∀ it ∈ items, ∃ pos0,
          (chordAttempt settings (clefMin settings.clef) (clefMax settings.clef) s pos0).1
            = some (it.notes.map Note.midi) ∧
          it.notes.length =
            (if decide (7 * RANDOM_DENOM <
                10 * s (getValidRandomMidi (isValidNote settings) (clefMin settings.clef)
                  (clefMax settings.clef - 11) s pos0).2)
             then 4 else 3)) := by
  refine ⟨?_, ?_, ?_⟩
  · intro r t pc h
    exact ⟨scale_third_fact r t pc h, scale_fifth_fact r t pc h,
      scale_seventh_fact r t pc h⟩
  · intro settings s pos hs hacc
    obtain ⟨hc1, hc2, hc3⟩ := clef_bounds settings.clef
    obtain ⟨chordMidis, h1, h2, _, h4⟩ := chordAttempt_strict_accepts settings
      (clefMin settings.clef) (clefMax settings.clef) s pos hs (by omega) hacc
    exact ⟨chordMidis, h1, h2, h4⟩
  · intro fuel settings s hs hmode hacc items h it hit
    obtain ⟨hc1, hc2, hc3⟩ := clef_bounds settings.clef
    rw [generateExercise_chords_eq fuel settings s hmode] at h
    obtain ⟨pos0, chordMidis, hca, rfl⟩ := genChords_mem settings (clefMin settings.clef)
      (clefMax settings.clef) s fuel 6 0 items h it hit
    obtain ⟨root, i7, _, hi7def, _, _, hhead, _, _, hstrict, _⟩ :=
      chordAttempt_some_props settings (clefMin settings.clef) (clefMax settings.clef)
        s pos0 chordMidis hs (by omega) hca
    obtain ⟨hb, hvalid⟩ := hstrict hacc
    have hrootmem : root ∈ chordMidis := by
      cases chordMidis with
      | nil => simp at hhead
      | cons a tl =>
          simp only [List.head?_cons, Option.some.injEq] at hhead
          subst hhead
          exact List.mem_cons_self _ _
    have hrootdia : (getScalePitchClasses settings.keyRoot settings.keyType).contains
        (root % 12) = true := by
      have := hvalid root hrootmem
      rw [isValidNote_strict settings hacc] at this
      exact this
    have hlen := buildChordStrict_length settings.keyRoot settings.keyType root i7
      hrootdia chordMidis hb
    refine ⟨pos0, ?_, ?_⟩
    · rw [chordMidis_map_midi]
      exact hca
    · simp only [chordItem, List.length_map]
      rw [hlen, hi7def]

/-- Witness for C9: the strict C-major chord run on the constant one-half
stream yields six three-note F4–A4–C5 chords (the seventh coin never fires
at one half). -/
theorem strictChord_branches_unreachable_witness :
    streamOk halfStream ∧ strictChordSettings.mode = GameMode.chords ∧
      strictChordSettings.useAccidentals = false ∧
      (∃ chordMidis,
        (chordAttempt strictChordSettings (clefMin strictChordSettings.clef)
            (clefMax strictChordSettings.clef) halfStream 0).1 = some chordMidis ∧
        chordMidis.any (fun mm => !isValidNote strictChordSettings mm) = false ∧
        chordMidis.length =
          (if decide (7 * RANDOM_DENOM <
              10 * halfStream (getValidRandomMidi (isValidNote strictChordSettings)
                (clefMin strictChordSettings.clef)
                (clefMax strictChordSettings.clef - 11) halfStream 0).2)
           then 4 else 3)) ∧
      ∀ it ∈ List.replicate 6 (chordItem strictChordSettings [65, 69, 72]), ∃ pos0,
        (chordAttempt strictChordSettings (clefMin strictChordSettings.clef)
            (clefMax strictChordSettings.clef) halfStream pos0).1
          = some (it.notes.map Note.midi) ∧
        it.notes.length =
          (if decide (7 * RANDOM_DENOM <
              10 * halfStream (getValidRandomMidi (isValidNote strictChordSettings)
                (clefMin strictChordSettings.clef)
                (clefMax strictChordSettings.clef - 11) halfStream pos0).2)
           then 4 else 3) := by
  have hstream : streamOk halfStream := fun n => by
    norm_num [halfStream, RANDOM_DENOM]
  have hgen : generateExercise 6 strictChordSettings halfStream =
      some (List.replicate 6 (chordItem strictChordSettings [65, 69, 72])) := by decide
  exact ⟨hstream, rfl, rfl,
    strictChord_branches_unreachable.2.1 strictChordSettings halfStream 0 hstream rfl,
    strictChord_branches_unreachable.2.2 6 strictChordSettings halfStream hstream rfl rfl
      _ hgen⟩

end SightReader
